import Mathlib

/-!
# Verification of the gonet `AutoReconnectConn` wrapper

Shallow embedding of `auto_reconn.go` (package `gonet`): a `net.Conn`
wrapper that transparently reconnects when a read or write fails with a
reconnect-worthy error (`io.EOF` or a non-temporary `net.Error`).

Modelling conventions:
* Transport handles (`net.Conn` values) are identified by natural numbers.
* Go `error` values are the inductive `GErr`; `none : Option GErr` is Go's
  `nil` error.  Error wrapping (as traversed by `errors.As`) is the `wrap`
  constructor; `err == io.EOF` in Go is *identity* comparison, so it does
  not unwrap — the model compares against the `eof` constructor directly.
* The environment (results of the underlying `Conn.Read`/`Conn.Write`,
  results of `net.Dialer.DialContext`) is supplied as explicit scripts:
  a list of `IOStep`s for the underlying I/O results and a list of
  `Option Nat` per dial attempt (`some c` = dial succeeded yielding
  transport `c`, `none` = dial failed).
* The cancellation context is a `closed : Bool` flag, constant during a
  run (it models the signal state; `Close` fires it once).
* Durations are naturals counted in seconds (`time.Second = 1`).
-/

namespace Gonet

/-- Model of Go `error` values as seen by `reconnectIfNeeded`
(`auto_reconn.go` lines 80–93).  `net temporary tag` is an error that
satisfies the `net.Error` interface with the given `Temporary()` answer;
`plain tag` is any other leaf error (e.g. `errors.New`); `closedManually`
is the package-level `ErrClosedManually`; `wrap e` is an error wrapping
`e` (unwrapped by `errors.As`, but not equal to `e` under `==`). -/
inductive GErr where
  | eof : GErr
  | net : Bool → Nat → GErr
  | closedManually : GErr
  | plain : Nat → GErr
  | wrap : GErr → GErr
deriving DecidableEq, Repr

/-- Models `errors.As(err, &netErr)` followed by `netErr.Temporary()`:
returns `some t` when the error chain contains a `net.Error` whose
`Temporary()` is `t`, and `none` when `errors.As` fails. -/
def errorsAsNetTemporary : GErr → Option Bool
  | .net t _ => some t
  | .wrap e => errorsAsNetTemporary e
  | _ => none

/-- The branch condition of `reconnectIfNeeded` (`auto_reconn.go` line 86):
`err == io.EOF || (errors.As(err, &netErr) && !netErr.Temporary())`. -/
def isReconnectWorthy (e : GErr) : Bool :=
  e == .eof ||
    (match errorsAsNetTemporary e with
     | some t => !t
     | none => false)

/-- The package variable `maxReconnectTimeout = time.Second * 60`
(`auto_reconn.go` line 16), in seconds. -/
def maxReconnectTimeout : Nat := 60

/-- Lines 141–143 of `auto_reconn.go`: after a successful dial, `wg.err`
is the hook's result when `c.OnConnected != nil`, and stays `nil`
otherwise. -/
def hookOutcome (hook : Option (Nat → Option GErr)) (newConn : Nat) : Option GErr :=
  match hook with
  | none => none
  | some h => h newConn

/-- Result of one run of the owner path of `AutoReconnectConn.reconnect`
(`auto_reconn.go` lines 96–157): the transport held in `c.Conn` when the
loop exits, the final `wg.err`, the list of backoff waits actually slept
(seconds, in order), and the number of `DialContext` calls made. -/
structure ReconnResult where
  conn : Nat
  outcome : Option GErr
  waits : List Nat
  dialCount : Nat
deriving DecidableEq, Repr

/-- The dial loop of `AutoReconnectConn.reconnect` (`auto_reconn.go`
lines 112–146), owner path.  `closed` is the state of `c.ctx` (constant
during the run), `hook` is `c.OnConnected` (given the new transport id,
returns its error result), `conn` is the current `c.Conn`, `timeout` the
current backoff value, `dials` the environment's scripted dial results.
Each iteration first checks the context (line 117); a failed dial doubles
and caps the timeout (lines 126–129) and sleeps it (line 131); a
successful dial installs the new transport (line 138), runs the hook if
present (lines 141–143) and exits.  Returns `none` when the script is
exhausted before the loop exits (the run is not modelled to completion). -/
def reconnectLoop (closed : Bool) (hook : Option (Nat → Option GErr)) (conn : Nat) :
    Nat → List (Option Nat) → Option ReconnResult
  | _, [] =>
    if closed then some ⟨conn, some .closedManually, [], 0⟩ else none
  | timeout, d :: rest =>
    if closed then some ⟨conn, some .closedManually, [], 0⟩
    else
      match d with
      | none =>
        let t := min (timeout * 2) maxReconnectTimeout
        match reconnectLoop closed hook conn t rest with
        | none => none
        | some r => some ⟨r.conn, r.outcome, t :: r.waits, r.dialCount + 1⟩
      | some newConn =>
        some { conn := newConn
               outcome := hookOutcome hook newConn
               waits := []
               dialCount := 1 }

/-- `AutoReconnectConn.reconnect`, owner path: the loop starts with
`timeout := time.Second` (`auto_reconn.go` line 112). -/
def reconnect (closed : Bool) (hook : Option (Nat → Option GErr)) (conn : Nat)
    (dials : List (Option Nat)) : Option ReconnResult :=
  reconnectLoop closed hook conn 1 dials

/-- One scripted result of the underlying `c.Conn.Read` / `c.Conn.Write`:
the byte count and the error it reported. -/
structure IOStep where
  n : Nat
  err : Option GErr
deriving DecidableEq, Repr

/-- Result of a top-level `AutoReconnectConn.Read`/`Write` call: the
returned byte count and error, the number of times the call recursed
(`return c.Read(b)` / `return c.Write(b)`), the total number of
`DialContext` calls made, and the wrapper's `c.Conn` field when the call
returns. -/
structure RWResult where
  n : Nat
  err : Option GErr
  retries : Nat
  dials : Nat
  conn : Nat
deriving DecidableEq, Repr

/-- `AutoReconnectConn.Read` (`auto_reconn.go` lines 68–78), with
`reconnectIfNeeded` (lines 80–93) inlined: the underlying read's result is
the head of `script`; a `nil` error returns `(n, nil)`; a reconnect-worthy
error runs `reconnect` on the next dial script from `reconns`, returning
`(0, err)` when the reconnect outcome is non-nil and recursing
(`return c.Read(b)`) when it is nil; any other error returns `(0, err)`
with no reconnection.  Returns `none` when a script is exhausted. -/
def readImpl (closed : Bool) (hook : Option (Nat → Option GErr)) :
    Nat → List IOStep → List (List (Option Nat)) → Option RWResult
  | _, [], _ => none
  | conn, s :: rest, reconns =>
    match s.err with
    | none => some ⟨s.n, none, 0, 0, conn⟩
    | some e =>
      if isReconnectWorthy e then
        match reconns with
        | [] => none
        | dials :: rrest =>
          match reconnect closed hook conn dials with
          | none => none
          | some r =>
            match r.outcome with
            | some re => some ⟨0, some re, 0, r.dialCount, r.conn⟩
            | none =>
              match readImpl closed hook r.conn rest rrest with
              | none => none
              | some res =>
                some ⟨res.n, res.err, res.retries + 1, r.dialCount + res.dials, res.conn⟩
      else
        some ⟨0, some e, 0, 0, conn⟩

/-- `AutoReconnectConn.Write` (`auto_reconn.go` lines 53–64).  Its body is
identical to `Read` up to the underlying primitive invoked (`Conn.Write`
instead of `Conn.Read`, whose results the script supplies) and a log
statement, so the same model function applies. -/
def writeImpl (closed : Bool) (hook : Option (Nat → Option GErr)) :
    Nat → List IOStep → List (List (Option Nat)) → Option RWResult :=
  readImpl closed hook

/-- Observable effects of `DialAutoReconnectContext`, in program order:
a `DialContext` call, an `OnConnected` hook invocation on a transport,
a `Close` of a transport. -/
inductive Eff where
  | dialAttempt : Eff
  | hookCall : Nat → Eff
  | closeConn : Nat → Eff
deriving DecidableEq, Repr

/-- Result of `DialAutoReconnectContext`: the transport held by the
returned wrapper (`none` when an error is returned instead), the returned
error, and the trace of effects performed. -/
structure DialResult where
  wrapper : Option Nat
  err : Option GErr
  trace : List Eff
deriving DecidableEq, Repr

/-- `DialAutoReconnectContext` (`auto_reconn.go` lines 160–173):
one initial `DialContext` (line 161); on dial error return it (line 163);
otherwise build the wrapper and, if an `OnConnected` hook was configured
by the options, invoke it once on the fresh transport (line 168),
returning its error with no wrapper on failure (line 169); otherwise
return the wrapper.  `dialOutcome` scripts the initial dial. -/
def DialAutoReconnectContext (dialOutcome : Except GErr Nat)
    (hook : Option (Nat → Option GErr)) : DialResult :=
  match dialOutcome with
  | .error e => ⟨none, some e, [.dialAttempt]⟩
  | .ok conn =>
    match hook with
    | none => ⟨some conn, none, [.dialAttempt]⟩
    | some h =>
      match h conn with
      | some e => ⟨none, some e, [.dialAttempt, .hookCall conn]⟩
      | none => ⟨some conn, none, [.dialAttempt, .hookCall conn]⟩

/-!
## Concurrency model for `reconnect`'s deduplication protocol

`reconnect` (`auto_reconn.go` lines 96–157) coordinates concurrent
callers through `c.mu` and the `reconnectWaitGroup` stored in `c.wg`.
We model `K` threads interleaving through `reconnect` as a transition
system.  Each lock-protected critical section of the Go code is one
atomic step (the mutex serializes it); the dial loop between the two
critical sections is a sequence of steps by its owner.  Operations are
identified by the order of their creation (`Sys.nextOp` is the next
fresh id); `Sys.slot` is `c.wg` (the id of the active operation, if
any), `Sys.outcome op` is `wg.err` once the owner has set it, and
`Sys.opDone op` is whether `wg.Done()` has run (the barrier is open). -/

/-- Program counter of one thread inside `reconnect`:
`idle` — not in `reconnect`; `start` — called `reconnect`, before the
first lock (line 98); `joinerWait op` — saw `c.wg != nil`, blocked in
`wg.Wait()` (line 102); `ownerDial op` — published a fresh operation and
is running the dial loop (lines 106–146); `ownerClear op` — exited the
loop, about to take the lock and clear `c.wg` (lines 148–151);
`ownerRelease op` — cleared the slot, about to call `wg.Done()`
(line 154); `finished op r` — returned `r` from `reconnect`, `op` being
the operation whose outcome it reports. -/
inductive TState where
  | idle : TState
  | start : TState
  | joinerWait : Nat → TState
  | ownerDial : Nat → TState
  | ownerClear : Nat → TState
  | ownerRelease : Nat → TState
  | finished : Option Nat → Option GErr → TState
deriving DecidableEq, Repr

/-- Global state of one `AutoReconnectConn` shared by `K` threads. -/
structure Sys (K : Nat) where
  slot : Option Nat
  nextOp : Nat
  outcome : Nat → Option (Option GErr)
  opDone : Nat → Bool
  th : Fin K → TState

/-- Initial state: no active operation, every thread outside `reconnect`. -/
def Sys.init (K : Nat) : Sys K :=
  ⟨none, 0, fun _ => none, fun _ => false, fun _ => .idle⟩

/-- Interleaving steps of the `reconnect` protocol.  `joinAcq`/`ownAcq`
model the first critical section (lines 98–108): seeing `c.wg != nil`
makes the caller a joiner, seeing `nil` makes it publish a fresh
operation and become the owner.  `dialFail` is a failed `DialContext`
plus backoff sleep (no shared state changes); `dialDone` is the loop
exiting with `wg.err` set to `r` (nil on plain success, the hook's error,
or `ErrClosedManually`).  `clearSlot` is the second critical section
(lines 148–151) setting `c.wg = nil`; `release` is `wg.Done()`
(line 154) followed by the owner returning `wg.err`; `joinFinish` is a
joiner's `wg.Wait()` unblocking and returning `wg.err`. -/
inductive Step {K : Nat} : Sys K → Sys K → Prop where
  | call (s : Sys K) (i : Fin K) :
      s.th i = .idle →
      Step s { s with th := Function.update s.th i .start }
  | joinAcq (s : Sys K) (i : Fin K) (op : Nat) :
      s.th i = .start → s.slot = some op →
      Step s { s with th := Function.update s.th i (.joinerWait op) }
  | ownAcq (s : Sys K) (i : Fin K) :
      s.th i = .start → s.slot = none →
      Step s { s with slot := some s.nextOp
                      nextOp := s.nextOp + 1
                      th := Function.update s.th i (.ownerDial s.nextOp) }
  | dialFail (s : Sys K) (i : Fin K) (op : Nat) :
      s.th i = .ownerDial op →
      Step s s
  | dialDone (s : Sys K) (i : Fin K) (op : Nat) (r : Option GErr) :
      s.th i = .ownerDial op →
      Step s { s with outcome := Function.update s.outcome op (some r)
                      th := Function.update s.th i (.ownerClear op) }
  | clearSlot (s : Sys K) (i : Fin K) (op : Nat) :
      s.th i = .ownerClear op →
      Step s { s with slot := none
                      th := Function.update s.th i (.ownerRelease op) }
  | release (s : Sys K) (i : Fin K) (op : Nat) (r : Option GErr) :
      s.th i = .ownerRelease op → s.outcome op = some r →
      Step s { s with opDone := Function.update s.opDone op true
                      th := Function.update s.th i (.finished (some op) r) }
  | joinFinish (s : Sys K) (i : Fin K) (op : Nat) (r : Option GErr) :
      s.th i = .joinerWait op → s.opDone op = true → s.outcome op = some r →
      Step s { s with th := Function.update s.th i (.finished (some op) r) }

/-- States reachable from the initial state by interleaving steps. -/
def Reachable {K : Nat} (s : Sys K) : Prop :=
  Relation.ReflTransGen Step (Sys.init K) s

/-- The operation a thread currently owns (it is between publishing the
operation and opening its barrier), if any. -/
def ownsOp : TState → Option Nat
  | .ownerDial op => some op
  | .ownerClear op => some op
  | .ownerRelease op => some op
  | _ => none

/-- Every operation id a thread state refers to. -/
def refsOp : TState → Option Nat
  | .ownerDial op => some op
  | .ownerClear op => some op
  | .ownerRelease op => some op
  | .joinerWait op => some op
  | .finished (some op) _ => some op
  | _ => none

/-- Protocol invariant: (1) a dialing or clearing owner's operation is
the published one; (2) each operation has at most one owner; (3) every
referenced operation id is stale-free (below `nextOp`), as is the slot;
(4) a dialing owner's outcome slot is still unset; (5) unallocated
operations have no outcome; (6) a finished thread's result is its
operation's recorded outcome. -/
def Inv {K : Nat} (s : Sys K) : Prop :=
  (∀ i op, s.th i = .ownerDial op → s.slot = some op) ∧
  (∀ i op, s.th i = .ownerClear op → s.slot = some op) ∧
  (∀ i j op, ownsOp (s.th i) = some op → ownsOp (s.th j) = some op → i = j) ∧
  (∀ i op, refsOp (s.th i) = some op → op < s.nextOp) ∧
  (∀ op, s.slot = some op → op < s.nextOp) ∧
  (∀ i op, s.th i = .ownerDial op → s.outcome op = none) ∧
  (∀ op, s.nextOp ≤ op → s.outcome op = none) ∧
  (∀ i op r, s.th i = .finished (some op) r → s.outcome op = some r)

lemma refsOp_of_ownsOp {t : TState} {op : Nat} (h : ownsOp t = some op) :
    refsOp t = some op := by
  cases t <;> simp_all [ownsOp, refsOp]

lemma ownsOp_update_congr {K : Nat} (th : Fin K → TState) (i : Fin K) (v : TState)
    (h : ownsOp v = ownsOp (th i)) (j : Fin K) :
    ownsOp (Function.update th i v j) = ownsOp (th j) := by
  rcases eq_or_ne j i with rfl | hne
  · rw [Function.update_same, h]
  · rw [Function.update_noteq hne]

lemma refsOp_update_congr {K : Nat} (th : Fin K → TState) (i : Fin K) (v : TState)
    (h : refsOp v = refsOp (th i)) (j : Fin K) :
    refsOp (Function.update th i v j) = refsOp (th j) := by
  rcases eq_or_ne j i with rfl | hne
  · rw [Function.update_same, h]
  · rw [Function.update_noteq hne]

lemma inv_init (K : Nat) : Inv (Sys.init K) := by
  refine ⟨?_, ?_, ?_, ?_, ?_, ?_, ?_, ?_⟩ <;> intros <;> simp_all [Sys.init, ownsOp, refsOp, Inv]

lemma inv_step {K : Nat} {s s' : Sys K} (hinv : Inv s) (hst : Step s s') : Inv s' := by
  obtain ⟨hA, hB, hC, hD, hE, hF, hG, hH⟩ := hinv
  cases hst with
  | call i hi =>
    unfold Inv
    dsimp only
    refine ⟨?_, ?_, ?_, ?_, hE, ?_, hG, ?_⟩
    · intro j op hj
      rcases eq_or_ne j i with rfl | hne
      · rw [Function.update_same] at hj; simp at hj
      · rw [Function.update_noteq hne] at hj; exact hA j op hj
    · intro j op hj
      rcases eq_or_ne j i with rfl | hne
      · rw [Function.update_same] at hj; simp at hj
      · rw [Function.update_noteq hne] at hj; exact hB j op hj
    · intro j k op hj hk
      rw [ownsOp_update_congr s.th i _ (by rw [hi]; rfl)] at hj hk
      exact hC j k op hj hk
    · intro j op hj
      rw [refsOp_update_congr s.th i _ (by rw [hi]; rfl)] at hj
      exact hD j op hj
    · intro j op hj
      rcases eq_or_ne j i with rfl | hne
      · rw [Function.update_same] at hj; simp at hj
      · rw [Function.update_noteq hne] at hj; exact hF j op hj
    · intro j op r hj
      rcases eq_or_ne j i with rfl | hne
      · rw [Function.update_same] at hj; simp at hj
      · rw [Function.update_noteq hne] at hj; exact hH j op r hj
  | joinAcq i op hi hslot =>
    unfold Inv
    dsimp only
    refine ⟨?_, ?_, ?_, ?_, hE, ?_, hG, ?_⟩
    · intro j op' hj
      rcases eq_or_ne j i with rfl | hne
      · rw [Function.update_same] at hj; simp at hj
      · rw [Function.update_noteq hne] at hj; exact hA j op' hj
    · intro j op' hj
      rcases eq_or_ne j i with rfl | hne
      · rw [Function.update_same] at hj; simp at hj
      · rw [Function.update_noteq hne] at hj; exact hB j op' hj
    · intro j k op' hj hk
      rcases eq_or_ne j i with rfl | hnej
      · rw [Function.update_same] at hj; simp [ownsOp] at hj
      · rw [Function.update_noteq hnej] at hj
        rcases eq_or_ne k i with rfl | hnek
        · rw [Function.update_same] at hk; simp [ownsOp] at hk
        · rw [Function.update_noteq hnek] at hk; exact hC j k op' hj hk
    · intro j op' hj
      rcases eq_or_ne j i with rfl | hne
      · rw [Function.update_same] at hj; simp [refsOp] at hj
        subst hj; exact hE _ hslot
      · rw [Function.update_noteq hne] at hj; exact hD j op' hj
    · intro j op' hj
      rcases eq_or_ne j i with rfl | hne
      · rw [Function.update_same] at hj; simp at hj
      · rw [Function.update_noteq hne] at hj; exact hF j op' hj
    · intro j op' r hj
      rcases eq_or_ne j i with rfl | hne
      · rw [Function.update_same] at hj; simp at hj
      · rw [Function.update_noteq hne] at hj; exact hH j op' r hj
  | ownAcq i hi hslot =>
    unfold Inv
    dsimp only
    refine ⟨?_, ?_, ?_, ?_, ?_, ?_, ?_, ?_⟩
    · intro j op hj
      rcases eq_or_ne j i with rfl | hne
      · rw [Function.update_same] at hj
        simp only [TState.ownerDial.injEq] at hj; rw [hj]
      · rw [Function.update_noteq hne] at hj
        have h1 := hA j op hj; rw [hslot] at h1; simp at h1
    · intro j op hj
      rcases eq_or_ne j i with rfl | hne
      · rw [Function.update_same] at hj; simp at hj
      · rw [Function.update_noteq hne] at hj
        have h1 := hB j op hj; rw [hslot] at h1; simp at h1
    · intro j k op hj hk
      rcases eq_or_ne j i with rfl | hnej
      · rcases eq_or_ne k j with rfl | hnek
        · rfl
        · rw [Function.update_same] at hj
          rw [Function.update_noteq hnek] at hk
          simp [ownsOp] at hj; subst hj
          have := hD k _ (refsOp_of_ownsOp hk); omega
      · rw [Function.update_noteq hnej] at hj
        rcases eq_or_ne k i with rfl | hnek
        · rw [Function.update_same] at hk
          simp [ownsOp] at hk; subst hk
          have := hD j _ (refsOp_of_ownsOp hj); omega
        · rw [Function.update_noteq hnek] at hk; exact hC j k op hj hk
    · intro j op hj
      rcases eq_or_ne j i with rfl | hne
      · rw [Function.update_same] at hj; simp [refsOp] at hj; omega
      · rw [Function.update_noteq hne] at hj
        have := hD j op hj; omega
    · intro op h
      have h2 := Option.some.inj h; omega
    · intro j op hj
      rcases eq_or_ne j i with rfl | hne
      · rw [Function.update_same] at hj
        simp only [TState.ownerDial.injEq] at hj; subst hj
        exact hG _ (le_refl _)
      · rw [Function.update_noteq hne] at hj; exact hF j op hj
    · intro op h
      exact hG op (by omega)
    · intro j op r hj
      rcases eq_or_ne j i with rfl | hne
      · rw [Function.update_same] at hj; simp at hj
      · rw [Function.update_noteq hne] at hj; exact hH j op r hj
  | dialFail i op hi =>
    exact ⟨hA, hB, hC, hD, hE, hF, hG, hH⟩
  | dialDone i op r hi =>
    unfold Inv
    dsimp only
    refine ⟨?_, ?_, ?_, ?_, hE, ?_, ?_, ?_⟩
    · intro j op' hj
      rcases eq_or_ne j i with rfl | hne
      · rw [Function.update_same] at hj; simp at hj
      · rw [Function.update_noteq hne] at hj; exact hA j op' hj
    · intro j op' hj
      rcases eq_or_ne j i with rfl | hne
      · rw [Function.update_same] at hj
        simp only [TState.ownerClear.injEq] at hj; subst hj
        exact hA j op hi
      · rw [Function.update_noteq hne] at hj; exact hB j op' hj
    · intro j k op' hj hk
      rw [ownsOp_update_congr s.th i _ (by rw [hi]; rfl)] at hj hk
      exact hC j k op' hj hk
    · intro j op' hj
      rw [refsOp_update_congr s.th i _ (by rw [hi]; rfl)] at hj
      exact hD j op' hj
    · intro j op' hj
      rcases eq_or_ne j i with rfl | hne
      · rw [Function.update_same] at hj; simp at hj
      · rw [Function.update_noteq hne] at hj
        have hne2 : op' ≠ op := by
          intro h; subst h
          exact hne (hC j i op' (by rw [hj]; rfl) (by rw [hi]; rfl))
        rw [Function.update_noteq hne2]; exact hF j op' hj
    · intro op' h
      have hop : op < s.nextOp := hD i op (by rw [hi]; rfl)
      rw [Function.update_noteq (by omega)]; exact hG op' h
    · intro j op' r' hj
      rcases eq_or_ne j i with rfl | hne
      · rw [Function.update_same] at hj; simp at hj
      · rw [Function.update_noteq hne] at hj
        have hne2 : op' ≠ op := by
          intro h; subst h
          have h1 := hH j op' r' hj
          have h2 := hF i op' hi
          rw [h1] at h2; simp at h2
        rw [Function.update_noteq hne2]; exact hH j op' r' hj
  | clearSlot i op hi =>
    unfold Inv
    dsimp only
    refine ⟨?_, ?_, ?_, ?_, ?_, ?_, hG, ?_⟩
    · intro j op' hj
      rcases eq_or_ne j i with rfl | hne
      · rw [Function.update_same] at hj; simp at hj
      · rw [Function.update_noteq hne] at hj
        have h1 := hA j op' hj
        have h2 := hB i op hi
        rw [h1] at h2
        have h3 := Option.some.inj h2
        subst h3
        exact absurd (hC j i op' (by rw [hj]; rfl) (by rw [hi]; rfl)) hne
    · intro j op' hj
      rcases eq_or_ne j i with rfl | hne
      · rw [Function.update_same] at hj; simp at hj
      · rw [Function.update_noteq hne] at hj
        have h1 := hB j op' hj
        have h2 := hB i op hi
        rw [h1] at h2
        have h3 := Option.some.inj h2
        subst h3
        exact absurd (hC j i op' (by rw [hj]; rfl) (by rw [hi]; rfl)) hne
    · intro j k op' hj hk
      rw [ownsOp_update_congr s.th i _ (by rw [hi]; rfl)] at hj hk
      exact hC j k op' hj hk
    · intro j op' hj
      rw [refsOp_update_congr s.th i _ (by rw [hi]; rfl)] at hj
      exact hD j op' hj
    · intro op h; simp at h
    · intro j op' hj
      rcases eq_or_ne j i with rfl | hne
      · rw [Function.update_same] at hj; simp at hj
      · rw [Function.update_noteq hne] at hj; exact hF j op' hj
    · intro j op' r hj
      rcases eq_or_ne j i with rfl | hne
      · rw [Function.update_same] at hj; simp at hj
      · rw [Function.update_noteq hne] at hj; exact hH j op' r hj
  | release i op r hi hout =>
    unfold Inv
    dsimp only
    refine ⟨?_, ?_, ?_, ?_, hE, ?_, hG, ?_⟩
    · intro j op' hj
      rcases eq_or_ne j i with rfl | hne
      · rw [Function.update_same] at hj; simp at hj
      · rw [Function.update_noteq hne] at hj; exact hA j op' hj
    · intro j op' hj
      rcases eq_or_ne j i with rfl | hne
      · rw [Function.update_same] at hj; simp at hj
      · rw [Function.update_noteq hne] at hj; exact hB j op' hj
    · intro j k op' hj hk
      rcases eq_or_ne j i with rfl | hnej
      · rw [Function.update_same] at hj; simp [ownsOp] at hj
      · rw [Function.update_noteq hnej] at hj
        rcases eq_or_ne k i with rfl | hnek
        · rw [Function.update_same] at hk; simp [ownsOp] at hk
        · rw [Function.update_noteq hnek] at hk; exact hC j k op' hj hk
    · intro j op' hj
      rcases eq_or_ne j i with rfl | hne
      · rw [Function.update_same] at hj; simp [refsOp] at hj
        subst hj; exact hD j op (by rw [hi]; rfl)
      · rw [Function.update_noteq hne] at hj; exact hD j op' hj
    · intro j op' hj
      rcases eq_or_ne j i with rfl | hne
      · rw [Function.update_same] at hj; simp at hj
      · rw [Function.update_noteq hne] at hj; exact hF j op' hj
    · intro j op' r' hj
      rcases eq_or_ne j i with rfl | hne
      · rw [Function.update_same] at hj
        simp only [TState.finished.injEq, Option.some.injEq] at hj
        obtain ⟨h1, h2⟩ := hj; subst h1; subst h2; exact hout
      · rw [Function.update_noteq hne] at hj; exact hH j op' r' hj
  | joinFinish i op r hi hdone hout =>
    unfold Inv
    dsimp only
    refine ⟨?_, ?_, ?_, ?_, hE, ?_, hG, ?_⟩
    · intro j op' hj
      rcases eq_or_ne j i with rfl | hne
      · rw [Function.update_same] at hj; simp at hj
      · rw [Function.update_noteq hne] at hj; exact hA j op' hj
    · intro j op' hj
      rcases eq_or_ne j i with rfl | hne
      · rw [Function.update_same] at hj; simp at hj
      · rw [Function.update_noteq hne] at hj; exact hB j op' hj
    · intro j k op' hj hk
      rcases eq_or_ne j i with rfl | hnej
      · rw [Function.update_same] at hj; simp [ownsOp] at hj
      · rw [Function.update_noteq hnej] at hj
        rcases eq_or_ne k i with rfl | hnek
        · rw [Function.update_same] at hk; simp [ownsOp] at hk
        · rw [Function.update_noteq hnek] at hk; exact hC j k op' hj hk
    · intro j op' hj
      rcases eq_or_ne j i with rfl | hne
      · rw [Function.update_same] at hj; simp [refsOp] at hj
        subst hj; exact hD j op (by rw [hi]; rfl)
      · rw [Function.update_noteq hne] at hj; exact hD j op' hj
    · intro j op' hj
      rcases eq_or_ne j i with rfl | hne
      · rw [Function.update_same] at hj; simp at hj
      · rw [Function.update_noteq hne] at hj; exact hF j op' hj
    · intro j op' r' hj
      rcases eq_or_ne j i with rfl | hne
      · rw [Function.update_same] at hj
        simp only [TState.finished.injEq, Option.some.injEq] at hj
        obtain ⟨h1, h2⟩ := hj; subst h1; subst h2; exact hout
      · rw [Function.update_noteq hne] at hj; exact hH j op' r' hj

lemma reachable_inv {K : Nat} {s : Sys K} (h : Reachable s) : Inv s := by
  induction h with
  | refl => exact inv_init K
  | tail _ hstep ih => exact inv_step ih hstep

/-!
## Helper lemmas
-/

lemma min_mul_min (x m p : Nat) (hp : 0 < p) : min (min x m * p) m = min (x * p) m := by
  rcases le_total x m with h | h
  · rw [min_eq_left h]
  · rw [min_eq_right h]
    have h1 : m ≤ m * p := Nat.le_mul_of_pos_right m hp
    have h2 : m ≤ x * p := le_trans h1 (Nat.mul_le_mul_right p h)
    rw [min_eq_right h1, min_eq_right h2]

/-- A run of the dial loop in which the first `n` dial attempts fail and
the next succeeds: the new transport is installed, the hook decides the
outcome, the backoff waits are `min (t * 2 ^ (a + 1)) 60` for
`a = 0, …, n-1`, exactly `n + 1` dials happen, and the remaining script
`extra` is never consulted. -/
lemma reconnectLoop_all_fail_then_success (hook : Option (Nat → Option GErr))
    (conn c : Nat) (extra : List (Option Nat)) :
    ∀ (n t : Nat),
      reconnectLoop false hook conn t (List.replicate n none ++ some c :: extra) =
        some ⟨c, hookOutcome hook c,
              (List.range n).map (fun a => min (t * 2 ^ (a + 1)) maxReconnectTimeout),
              n + 1⟩ := by
  intro n
  induction n with
  | zero => intro t; simp [reconnectLoop]
  | succ n ih =>
    intro t
    rw [List.replicate_succ, List.cons_append]
    have step : reconnectLoop false hook conn t
        (none :: (List.replicate n none ++ some c :: extra)) =
        match reconnectLoop false hook conn (min (t * 2) maxReconnectTimeout)
            (List.replicate n none ++ some c :: extra) with
        | none => none
        | some r => some ⟨r.conn, r.outcome,
            min (t * 2) maxReconnectTimeout :: r.waits, r.dialCount + 1⟩ := by
      simp [reconnectLoop]
    rw [step, ih (min (t * 2) maxReconnectTimeout)]
    dsimp only
    have hl : min (t * 2) maxReconnectTimeout ::
          (List.range n).map
            (fun a => min (min (t * 2) maxReconnectTimeout * 2 ^ (a + 1)) maxReconnectTimeout)
        = (List.range (n + 1)).map (fun a => min (t * 2 ^ (a + 1)) maxReconnectTimeout) := by
      rw [List.range_succ_eq_map, List.map_cons, List.map_map]
      have hhead : min (t * 2) maxReconnectTimeout
          = min (t * 2 ^ (0 + 1)) maxReconnectTimeout := by norm_num
      have htail := List.map_congr_left (l := List.range n)
        (f := fun a => min (min (t * 2) maxReconnectTimeout * 2 ^ (a + 1)) maxReconnectTimeout)
        (g := (fun a => min (t * 2 ^ (a + 1)) maxReconnectTimeout) ∘ Nat.succ)
        (by
          intro a _
          simp only [Function.comp, Nat.succ_eq_add_one]
          rw [min_mul_min _ _ _ (by positivity)]
          congr 1
          ring)
      rw [htail, hhead]
    rw [hl]

/-- `Read`/`Write` model: whenever the call returns a non-nil error, the
returned byte count is `0`. -/
lemma readImpl_err_zero (closed : Bool) (hook : Option (Nat → Option GErr)) :
    ∀ (script : List IOStep) (conn : Nat) (reconns : List (List (Option Nat)))
      (r : RWResult) (e : GErr),
      readImpl closed hook conn script reconns = some r → r.err = some e → r.n = 0 := by
  intro script
  induction script with
  | nil =>
    intro conn reconns r e h
    simp [readImpl] at h
  | cons s rest ih =>
    intro conn reconns r e h herr
    simp only [readImpl] at h
    split at h
    · obtain rfl := Option.some.inj h
      simp at herr
    · split at h
      · split at h
        · exact absurd h (by simp)
        · split at h
          · exact absurd h (by simp)
          · split at h
            · obtain rfl := Option.some.inj h
              rfl
            · split at h
              · exact absurd h (by simp)
              · next res hres =>
                obtain rfl := Option.some.inj h
                exact ih _ _ res e hres herr
      · obtain rfl := Option.some.inj h
        rfl

/-- `Read`/`Write` model: the number of recursive retries is bounded by
the number of reconnect operations the environment supplies dial scripts
for — each retry consumes one. -/
lemma readImpl_retries_le (closed : Bool) (hook : Option (Nat → Option GErr)) :
    ∀ (script : List IOStep) (conn : Nat) (reconns : List (List (Option Nat)))
      (r : RWResult),
      readImpl closed hook conn script reconns = some r →
      r.retries ≤ reconns.length := by
  intro script
  induction script with
  | nil =>
    intro conn reconns r h
    simp [readImpl] at h
  | cons s rest ih =>
    intro conn reconns r h
    simp only [readImpl] at h
    split at h
    · obtain rfl := Option.some.inj h; simp
    · split at h
      · split at h
        · exact absurd h (by simp)
        · next dials rrest =>
          split at h
          · exact absurd h (by simp)
          · split at h
            · obtain rfl := Option.some.inj h; simp
            · split at h
              · exact absurd h (by simp)
              · next res hres =>
                obtain rfl := Option.some.inj h
                have := ih _ _ res hres
                simp only [List.length_cons]
                omega
      · obtain rfl := Option.some.inj h; simp

/-- `Read`/`Write` model: a reconnect-worthy failure whose reconnect
operation ends with a non-nil outcome returns `(0, outcome)` with no
retry; the transport field still reflects any swap done by the loop. -/
lemma readImpl_reconnect_failed (closed : Bool) (hook : Option (Nat → Option GErr))
    (conn : Nat) (st : IOStep) (e re : GErr) (rest : List IOStep)
    (dials : List (Option Nat)) (rrest : List (List (Option Nat))) (rr : ReconnResult)
    (hst : st.err = some e) (hw : isReconnectWorthy e = true)
    (hrec : reconnect closed hook conn dials = some rr) (hout : rr.outcome = some re) :
    readImpl closed hook conn (st :: rest) (dials :: rrest)
      = some ⟨0, some re, 0, rr.dialCount, rr.conn⟩ := by
  simp [readImpl, hst, hw, hrec, hout]

/-!
## Claim theorems
-/

/-- C1 counterexample: the claim says a failed call is retried at most
once after reconnection.  In this run a single top-level `Read` sees EOF,
reconnects successfully, sees EOF again on the retry, reconnects again,
and only then succeeds: the `retries` field of the result is `2`,
exceeding the claimed bound of one. -/
theorem read_retry_counterexample :
    readImpl false none 0 [⟨0, some GErr.eof⟩, ⟨0, some GErr.eof⟩, ⟨5, none⟩]
        [[some 1], [some 2]] = some ⟨5, none, 2, 2, 2⟩ ∧
    1 < (2 : Nat) :=
  ⟨by decide, by decide⟩

/-- C1 (amended): after each *successful* reconnection the original call
is retried once more by recursion (`return c.Read(b)` / `return
c.Write(b)`), so a single top-level call may be retried once per
reconnect operation — the retry count is bounded by the number of
reconnect operations, not by one.  When reconnection fails, its error is
returned to the caller with no retry. -/
theorem read_retry_amended :
    (∀ (closed : Bool) (hook : Option (Nat → Option GErr)) (conn : Nat) (st : IOStep)
        (e re : GErr) (rest : List IOStep) (dials : List (Option Nat))
        (rrest : List (List (Option Nat))) (rr : ReconnResult),
        st.err = some e → isReconnectWorthy e = true →
        reconnect closed hook conn dials = some rr → rr.outcome = some re →
        readImpl closed hook conn (st :: rest) (dials :: rrest)
          = some ⟨0, some re, 0, rr.dialCount, rr.conn⟩) ∧
    (∀ (closed : Bool) (hook : Option (Nat → Option GErr)) (conn : Nat)
        (script : List IOStep) (reconns : List (List (Option Nat))) (r : RWResult),
        readImpl closed hook conn script reconns = some r →
        r.retries ≤ reconns.length) ∧
    (∀ (closed : Bool) (hook : Option (Nat → Option GErr)) (conn : Nat)
        (script : List IOStep) (reconns : List (List (Option Nat))) (r : RWResult),
        writeImpl closed hook conn script reconns = some r →
        r.retries ≤ reconns.length) := by
  refine ⟨readImpl_reconnect_failed, ?_, ?_⟩
  · intro closed hook conn script reconns r hr
    exact readImpl_retries_le closed hook script conn reconns r hr
  · intro closed hook conn script reconns r hr
    exact readImpl_retries_le closed hook script conn reconns r hr

/-- C1 witness: a `Read` whose reconnection fails (context already
cancelled) returns the reconnect error with no retry, and its retry
count respects the bound. -/
theorem read_retry_amended_witness :
    readImpl true none 0 [⟨0, some GErr.eof⟩] [[]]
      = some ⟨0, some GErr.closedManually, 0, 0, 0⟩ ∧
    (⟨0, some GErr.closedManually, 0, 0, 0⟩ : RWResult).retries ≤ 1 := by
  constructor
  · exact read_retry_amended.1 true none 0 ⟨0, some GErr.eof⟩ GErr.eof GErr.closedManually
      [] [] [] ⟨0, some GErr.closedManually, [], 0⟩ rfl rfl (by decide) rfl
  · exact read_retry_amended.2.1 true none 0 [⟨0, some GErr.eof⟩] [[]]
      ⟨0, some GErr.closedManually, 0, 0, 0⟩ (by decide)

/-- C2 counterexample: the claim predicts a first backoff wait of
`min (1s * 2^0, 60s) = 1s`.  In a run whose first dial fails and second
succeeds, the only wait slept is 2 seconds — the code doubles `timeout`
*before* sleeping, so a 1-second wait is never observed. -/
theorem backoff_counterexample :
    reconnect false none 0 [none, some 7] = some ⟨7, none, [2], 2⟩ ∧
    ¬ (2 : Nat) = min (1 * 2 ^ 0) maxReconnectTimeout :=
  ⟨by decide, by decide⟩

/-- C2 (amended): with the default configuration, the wait before dial
attempt number `a` (counting from 0 after the first failure) is
`min (1s * 2^(a+1), 60s)`: over consecutive failed dial attempts the
observed waits are 2s, 4s, 8s, 16s, 32s, 60s, 60s, … (capped at 60s). -/
theorem backoff_amended (hook : Option (Nat → Option GErr)) (conn c : Nat)
    (extra : List (Option Nat)) (n : Nat) :
    (reconnect false hook conn (List.replicate n none ++ some c :: extra)).map
        ReconnResult.waits
      = some ((List.range n).map fun a => min (1 * 2 ^ (a + 1)) maxReconnectTimeout) := by
  rw [reconnect, reconnectLoop_all_fail_then_success hook conn c extra n 1]
  rfl

/-- C3: in every reachable state of the interleaved `reconnect` protocol,
at most one thread is inside the dial-loop/owner region (so at most one
reconnect operation is active per wrapper at any instant, and only that
owner dials), and any two threads that finished reporting the same
operation received the identical outcome. -/
theorem reconnect_dedup_invariant {K : Nat} (s : Sys K) (h : Reachable s) :
    (∀ i j opi opj,
        (s.th i = .ownerDial opi ∨ s.th i = .ownerClear opi) →
        (s.th j = .ownerDial opj ∨ s.th j = .ownerClear opj) → i = j) ∧
    (∀ i j op r r',
        s.th i = .finished (some op) r → s.th j = .finished (some op) r' → r = r') := by
  obtain ⟨hA, hB, hC, _, _, _, _, hH⟩ := reachable_inv h
  constructor
  · intro i j opi opj hi hj
    have h1 : s.slot = some opi := hi.elim (hA i opi) (hB i opi)
    have h2 : s.slot = some opj := hj.elim (hA j opj) (hB j opj)
    rw [h1] at h2
    obtain rfl := Option.some.inj h2
    exact hC i j opi
      (by rcases hi with hx | hx <;> rw [hx] <;> rfl)
      (by rcases hj with hx | hx <;> rw [hx] <;> rfl)
  · intro i j op r r' hi hj
    have h1 := hH i op r hi
    have h2 := hH j op r' hj
    rw [h1] at h2
    exact Option.some.inj h2

/-- C3 witness: the invariant instantiated at the initial state of a
two-thread system. -/
theorem reconnect_dedup_invariant_witness :
    (∀ i j opi opj,
        ((Sys.init 2).th i = .ownerDial opi ∨ (Sys.init 2).th i = .ownerClear opi) →
        ((Sys.init 2).th j = .ownerDial opj ∨ (Sys.init 2).th j = .ownerClear opj) →
        i = j) ∧
    (∀ i j op r r',
        (Sys.init 2).th i = .finished (some op) r →
        (Sys.init 2).th j = .finished (some op) r' → r = r') :=
  reconnect_dedup_invariant (Sys.init 2) Relation.ReflTransGen.refl

/-- C4: when a dial succeeds after `fails.length` failures but the
connect hook then errors, the new transport `c` stays installed, exactly
`fails.length + 1` dials happen (none after the success, though `extra`
scripted dials remain), the hook's error is returned to the triggering
caller with no retry — and a later call on the wrapper runs against the
newly installed transport `c`. -/
theorem hook_failure_keeps_transport
    (fails : List (Option Nat)) (c conn m : Nat) (extra : List (Option Nat))
    (hk : Nat → Option GErr) (herr : GErr) (st : IOStep) (e : GErr)
    (rest : List IOStep) (rrest : List (List (Option Nat)))
    (hfails : ∀ d ∈ fails, d = none) (hhook : hk c = some herr)
    (hst : st.err = some e) (hw : isReconnectWorthy e = true) :
    reconnect false (some hk) conn (fails ++ some c :: extra)
        = some ⟨c, some herr,
            (List.range fails.length).map
              (fun a => min (1 * 2 ^ (a + 1)) maxReconnectTimeout),
            fails.length + 1⟩ ∧
    readImpl false (some hk) conn (st :: rest) ((fails ++ some c :: extra) :: rrest)
        = some ⟨0, some herr, 0, fails.length + 1, c⟩ ∧
    readImpl false (some hk) c [⟨m, none⟩] [] = some ⟨m, none, 0, 0, c⟩ := by
  have hrep : fails = List.replicate fails.length none := List.eq_replicate_length.mpr hfails
  have hrec : reconnect false (some hk) conn (fails ++ some c :: extra)
      = some ⟨c, some herr,
          (List.range fails.length).map
            (fun a => min (1 * 2 ^ (a + 1)) maxReconnectTimeout),
          fails.length + 1⟩ := by
    conv_lhs => rw [hrep]
    rw [reconnect, reconnectLoop_all_fail_then_success]
    simp [hookOutcome, hhook]
  refine ⟨hrec, ?_, ?_⟩
  · exact readImpl_reconnect_failed false (some hk) conn st e herr rest _ rrest _
      hst hw hrec rfl
  · simp [readImpl]

/-- C4 witness: one failed dial, then success on transport 5, hook fails
with `plain 9`; exactly 2 dials, error surfaced, transport 5 installed
and usable by a later call. -/
theorem hook_failure_keeps_transport_witness :
    reconnect false (some fun _ => some (GErr.plain 9)) 0 ([none] ++ some 5 :: [some 8])
        = some ⟨5, some (GErr.plain 9),
            (List.range 1).map (fun a => min (1 * 2 ^ (a + 1)) maxReconnectTimeout), 2⟩ ∧
    readImpl false (some fun _ => some (GErr.plain 9)) 0 [⟨0, some GErr.eof⟩]
        (([none] ++ some 5 :: [some 8]) :: [])
        = some ⟨0, some (GErr.plain 9), 0, 2, 5⟩ ∧
    readImpl false (some fun _ => some (GErr.plain 9)) 5 [⟨4, none⟩] []
        = some ⟨4, none, 0, 0, 5⟩ :=
  hook_failure_keeps_transport [none] 5 0 4 [some 8] (fun _ => some (GErr.plain 9))
    (GErr.plain 9) ⟨0, some GErr.eof⟩ GErr.eof [] []
    (by simp) rfl rfl (by decide)

/-- C5: a `Read`/`Write` failing with a transport-level error marked
temporary returns that error immediately and unmodified, with zero dial
attempts and the transport untouched. -/
theorem temporary_error_passthrough (closed : Bool) (hook : Option (Nat → Option GErr))
    (conn : Nat) (st : IOStep) (e : GErr) (rest : List IOStep)
    (reconns : List (List (Option Nat)))
    (hst : st.err = some e) (htemp : errorsAsNetTemporary e = some true) :
    readImpl closed hook conn (st :: rest) reconns = some ⟨0, some e, 0, 0, conn⟩ := by
  have hne : (e == GErr.eof) = false := by
    cases e <;> simp_all [errorsAsNetTemporary]
  have hw : isReconnectWorthy e = false := by
    unfold isReconnectWorthy
    rw [htemp, hne]
    rfl
  simp [readImpl, hst, hw]

/-- C5 witness: a temporary `net.Error` on a read with an available dial
script: the error passes through and the dial script stays unused. -/
theorem temporary_error_passthrough_witness :
    readImpl false none 0 [⟨7, some (GErr.net true 3)⟩] [[some 1]]
      = some ⟨0, some (GErr.net true 3), 0, 0, 0⟩ :=
  temporary_error_passthrough false none 0 ⟨7, some (GErr.net true 3)⟩ (GErr.net true 3)
    [] [[some 1]] rfl rfl

/-- C6: once the cancellation signal has fired (`Close` ran), the dial
loop observes it at entry and exits with `ErrClosedManually` after zero
dials, whatever dial script the environment would offer; a call whose
failure is reconnect-worthy therefore returns `ErrClosedManually` with
zero dial attempts. -/
theorem closed_returns_closed_manually (hook : Option (Nat → Option GErr)) (conn : Nat)
    (dials : List (Option Nat)) (st : IOStep) (e : GErr) (rest : List IOStep)
    (rrest : List (List (Option Nat)))
    (hst : st.err = some e) (hw : isReconnectWorthy e = true) :
    reconnect true hook conn dials = some ⟨conn, some GErr.closedManually, [], 0⟩ ∧
    readImpl true hook conn (st :: rest) (dials :: rrest)
      = some ⟨0, some GErr.closedManually, 0, 0, conn⟩ := by
  have h1 : reconnect true hook conn dials
      = some ⟨conn, some GErr.closedManually, [], 0⟩ := by
    cases dials <;> rfl
  exact ⟨h1, readImpl_reconnect_failed true hook conn st e GErr.closedManually rest dials
    rrest ⟨conn, some GErr.closedManually, [], 0⟩ hst hw h1 rfl⟩

/-- C6 witness: after close, an EOF-failed read returns
`ErrClosedManually` and the successful dial available in the script is
never attempted. -/
theorem closed_returns_closed_manually_witness :
    reconnect true none 0 [some 3] = some ⟨0, some GErr.closedManually, [], 0⟩ ∧
    readImpl true none 0 [⟨0, some GErr.eof⟩] [[some 3]]
      = some ⟨0, some GErr.closedManually, 0, 0, 0⟩ :=
  closed_returns_closed_manually none 0 [some 3] ⟨0, some GErr.eof⟩ GErr.eof [] [] rfl rfl

/-- C7: construction performs exactly one initial dial; when a hook is
configured and the dial succeeds, the hook runs exactly once,
synchronously after the dial and before the function returns, and a hook
error fails construction: the error is returned and no wrapper is
produced. -/
theorem dial_construction (d : Except GErr Nat) (hook : Option (Nat → Option GErr)) :
    (DialAutoReconnectContext d hook).trace.count .dialAttempt = 1 ∧
    (∀ c hk, d = .ok c → hook = some hk →
      (DialAutoReconnectContext d hook).trace = [.dialAttempt, .hookCall c] ∧
      ∀ e, hk c = some e →
        (DialAutoReconnectContext d hook).wrapper = none ∧
        (DialAutoReconnectContext d hook).err = some e) := by
  constructor
  · rcases d with e | c
    · rfl
    · rcases hook with _ | hk
      · rfl
      · rcases hh : hk c with _ | e <;> simp [DialAutoReconnectContext, hh, List.count_cons]
  · rintro c hk rfl rfl
    rcases hh : hk c with _ | e0
    · refine ⟨by simp [DialAutoReconnectContext, hh], ?_⟩
      intro e he
      simp at he
    · refine ⟨by simp [DialAutoReconnectContext, hh], ?_⟩
      intro e he
      obtain rfl := Option.some.inj he
      simp [DialAutoReconnectContext, hh]

/-- C7 witness: dial succeeds on transport 4, hook configured and
failing with `plain 1`: trace is one dial then one hook call, and
construction returns the hook's error with no wrapper. -/
theorem dial_construction_witness :
    (DialAutoReconnectContext (.ok 4) (some fun _ => some (GErr.plain 1))).trace
        = [.dialAttempt, .hookCall 4] ∧
    (DialAutoReconnectContext (.ok 4) (some fun _ => some (GErr.plain 1))).wrapper
        = none ∧
    (DialAutoReconnectContext (.ok 4) (some fun _ => some (GErr.plain 1))).err
        = some (GErr.plain 1) := by
  obtain ⟨h1, h2⟩ := dial_construction (.ok 4) (some fun _ => some (GErr.plain 1))
  obtain ⟨h3, h4⟩ := h2 4 _ rfl rfl
  obtain ⟨h5, h6⟩ := h4 _ rfl
  exact ⟨h3, h5, h6⟩

/-- C8: whenever the `Read`/`Write` model returns a non-nil error — of
any kind, including temporary errors — the returned byte count is 0,
even when the underlying transport reported a positive count alongside
the error. -/
theorem rw_error_returns_zero (closed : Bool) (hook : Option (Nat → Option GErr))
    (conn : Nat) (script : List IOStep) (reconns : List (List (Option Nat)))
    (r : RWResult) (e : GErr)
    (hr : readImpl closed hook conn script reconns = some r ∨
          writeImpl closed hook conn script reconns = some r)
    (he : r.err = some e) : r.n = 0 := by
  rcases hr with hr | hr
  · exact readImpl_err_zero closed hook script conn reconns r e hr he
  · exact readImpl_err_zero closed hook script conn reconns r e hr he

/-- C8 witness: the underlying read reports 7 bytes alongside a plain
error; the wrapper returns 0 bytes with that error. -/
theorem rw_error_returns_zero_witness :
    readImpl false none 0 [⟨7, some (GErr.plain 0)⟩] []
      = some ⟨0, some (GErr.plain 0), 0, 0, 0⟩ ∧
    (⟨0, some (GErr.plain 0), 0, 0, 0⟩ : RWResult).n = 0 :=
  ⟨by decide, rw_error_returns_zero false none 0 [⟨7, some (GErr.plain 0)⟩] []
      ⟨0, some (GErr.plain 0), 0, 0, 0⟩ (GErr.plain 0) (Or.inl (by decide)) rfl⟩

/-- C9: an error that is neither `io.EOF` itself nor carries a
`net.Error` in its chain is returned as-is with no reconnection and zero
dials; and the reconnect-worthy classification holds exactly for `io.EOF`
or an error whose chain yields a `net.Error` with `Temporary() = false`. -/
theorem non_worthy_passthrough :
    (∀ (closed : Bool) (hook : Option (Nat → Option GErr)) (conn : Nat) (st : IOStep)
        (e : GErr) (rest : List IOStep) (reconns : List (List (Option Nat))),
        st.err = some e → errorsAsNetTemporary e = none → e ≠ GErr.eof →
        readImpl closed hook conn (st :: rest) reconns = some ⟨0, some e, 0, 0, conn⟩) ∧
    (∀ e : GErr, isReconnectWorthy e = true ↔
        (e = GErr.eof ∨ errorsAsNetTemporary e = some false)) := by
  constructor
  · intro closed hook conn st e rest reconns hst hnet hne
    have h1 : (e == GErr.eof) = false := by
      simp only [beq_eq_false_iff_ne, ne_eq]
      exact hne
    have hw : isReconnectWorthy e = false := by
      unfold isReconnectWorthy
      rw [hnet, h1]
      rfl
    simp [readImpl, hst, hw]
  · intro e
    unfold isReconnectWorthy
    rcases htn : errorsAsNetTemporary e with _ | t
    · simp [beq_iff_eq]
    · cases t <;> simp [beq_iff_eq]

/-- C9 witness: a wrapped plain error (not a `net.Error`, not identical
to `io.EOF`) passes through with zero dials, the scripted dial unused. -/
theorem non_worthy_passthrough_witness :
    readImpl false none 0 [⟨3, some (GErr.wrap (GErr.plain 2))⟩] [[some 1]]
      = some ⟨0, some (GErr.wrap (GErr.plain 2)), 0, 0, 0⟩ :=
  non_worthy_passthrough.1 false none 0 ⟨3, some (GErr.wrap (GErr.plain 2))⟩
    (GErr.wrap (GErr.plain 2)) [] [[some 1]] rfl rfl (by decide)

/-- C10: when construction fails because the hook errors, the freshly
dialed transport is not closed — the trace contains no close of it — and
the caller receives the hook's error with no wrapper. -/
theorem construction_hook_failure_leaves_conn_open (c : Nat) (hk : Nat → Option GErr)
    (e : GErr) (hh : hk c = some e) :
    (DialAutoReconnectContext (.ok c) (some hk)).wrapper = none ∧
    (DialAutoReconnectContext (.ok c) (some hk)).err = some e ∧
    Eff.closeConn c ∉ (DialAutoReconnectContext (.ok c) (some hk)).trace := by
  simp [DialAutoReconnectContext, hh]

/-- C10 witness: hook fails with `plain 5` on transport 2; the error is
returned and transport 2 is never closed. -/
theorem construction_hook_failure_leaves_conn_open_witness :
    (DialAutoReconnectContext (.ok 2) (some fun _ => some (GErr.plain 5))).wrapper
        = none ∧
    (DialAutoReconnectContext (.ok 2) (some fun _ => some (GErr.plain 5))).err
        = some (GErr.plain 5) ∧
    Eff.closeConn 2 ∉
      (DialAutoReconnectContext (.ok 2) (some fun _ => some (GErr.plain 5))).trace :=
  construction_hook_failure_leaves_conn_open 2 (fun _ => some (GErr.plain 5))
    (GErr.plain 5) rfl

end Gonet
